import Mathlib

/-!
Shallow embedding of the `battleships` package (board.py, game.py) and
verification of its specification claims.

Python mutation is made explicit: every operation returns the updated value.
A Python method that can raise returns its post-state together with an
`Option`/`Except` describing the raised exception, because in Python the
mutations performed before the `raise` persist on the object.
-/

namespace Battleships

/-- board.py `FieldState` enum. -/
inductive FieldState where
  | EMPTY
  | SHIP
  | HIT
  | MISSED
deriving DecidableEq

/-- board.py `ShotResult` enum. -/
inductive ShotResult where
  | MISS
  | PREVIOUS_MISS
  | HIT
  | PREVIOUS_HIT
  | INVALID
deriving DecidableEq

/-- `Field._transitions` combined with `Field.drop_bomb`: from the current
state, the new state and the returned shot result. -/
def Field.transition : FieldState → FieldState × ShotResult
  | .EMPTY => (.MISSED, .MISS)
  | .SHIP => (.HIT, .HIT)
  | .HIT => (.HIT, .PREVIOUS_HIT)
  | .MISSED => (.MISSED, .PREVIOUS_MISS)

/-- State of a single field after `n` successive `drop_bomb` calls. -/
def Field.bombs (s : FieldState) : Nat → FieldState
  | 0 => s
  | n + 1 => (Field.transition (Field.bombs s n)).1

/-- Result returned by `drop_bomb` call number `n + 1` on a field that
started in state `s`. -/
def Field.nthResult (s : FieldState) (n : Nat) : ShotResult :=
  (Field.transition (Field.bombs s n)).2

def FieldState.isEmpty : FieldState → Bool
  | .EMPTY => true
  | _ => false

def FieldState.isShip : FieldState → Bool
  | .SHIP => true
  | _ => false

/-- Python list indexing `l[i]`: negative indices count from the end;
`none` models an `IndexError`. -/
def pyIndex (n : Nat) (i : Int) : Option Nat :=
  if i < 0 then
    if i + (n : Int) < 0 then none else some (i + (n : Int)).toNat
  else if i < (n : Int) then some i.toNat else none

/-- Python slice bound resolution for `l[a:b]` on a list of length `n`:
clamp into `[0, n]`, negative values counting from the end. -/
def pySliceIdx (n : Nat) (i : Int) : Nat :=
  if i < 0 then (i + (n : Int)).toNat else min i.toNat n

/-- The indices selected by the Python slice `l[a:b]` (step 1). -/
def pySliceIdxs (n : Nat) (a b : Int) : List Nat :=
  List.range' (pySliceIdx n a) (pySliceIdx n b - pySliceIdx n a)

/-- board.py `Board`.  `grid` is `self._board` (rows indexed by `y`, then
columns by `x`), with each Python `Field` object represented by its state;
`ships` is `self._ships` with each `Field` reference replaced by the
resolved `(row, column)` coordinate of that field; `remaining` is
`self._remaining_ships`. -/
structure Board where
  size : Nat
  grid : List (List FieldState)
  ships : List (List (Nat × Nat))
  remaining : List Nat
deriving DecidableEq

/-- `Board.__init__` (defaults `size=12`, `ships=(2, 3, 3, 4, 5)`). -/
def Board.init (size : Nat := 12) (ships : List Nat := [2, 3, 3, 4, 5]) : Board :=
  { size := size
    grid := List.replicate size (List.replicate size FieldState.EMPTY)
    ships := []
    remaining := ships }

/-- State of the field object at row `y`, column `x`. -/
def Board.cell (b : Board) (y x : Nat) : FieldState :=
  (b.grid.getD y []).getD x FieldState.EMPTY

/-- Overwrite the state of the field at row `y`, column `x`. -/
def Board.setCell (b : Board) (y x : Nat) (s : FieldState) : Board :=
  { b with grid := b.grid.set y ((b.grid.getD y []).set x s) }

def Board.setCells (b : Board) (cells : List (Nat × Nat)) (s : FieldState) : Board :=
  cells.foldl (fun bb c => bb.setCell c.1 c.2 s) b

/-- `Board.drop_bomb(x, y)`: `self._board[y][x]` with Python indexing;
an `IndexError` is converted to a `ValueError` (`none` here), leaving the
board unchanged; otherwise the field transitions and the result is
returned. -/
def Board.dropBomb (b : Board) (x y : Int) : Board × Option ShotResult :=
  match pyIndex b.grid.length y with
  | none => (b, none)
  | some y' =>
    match pyIndex (b.grid.getD y' []).length x with
    | none => (b, none)
    | some x' =>
      (b.setCell y' x' (Field.transition (b.cell y' x')).1,
       some (Field.transition (b.cell y' x')).2)

/-- Resolve `[column[x] for column in rows]` for the vertical branch of
`place_ship`: Python raises `IndexError` at the first out-of-range
`column[x]`. -/
def resolveCols (grid : List (List FieldState)) (x : Int) :
    List Nat → Except String (List (Nat × Nat))
  | [] => .ok []
  | r :: rs =>
    match pyIndex (grid.getD r []).length x with
    | none => .error "Not enough space to place ship"
    | some x' =>
      match resolveCols grid x rs with
      | .error e => .error e
      | .ok l => .ok ((r, x') :: l)

/-- The field coordinates `place_ship` tries to allocate (its second
`try` block): horizontal uses `self._board[y][x:x+size]` (row lookup can
raise `IndexError`, the slice cannot), vertical uses
`[column[x] for column in self._board[y:y+size]]`. -/
def Board.shipCells (b : Board) (size : Nat) (x y : Int) (horizontal : Bool) :
    Except String (List (Nat × Nat)) :=
  if horizontal then
    match pyIndex b.grid.length y with
    | none => .error "Not enough space to place ship"
    | some y' =>
      .ok ((pySliceIdxs (b.grid.getD y' []).length x (x + (size : Int))).map
        fun c => (y', c))
  else
    resolveCols b.grid x (pySliceIdxs b.grid.length y (y + (size : Int)))

/-- `Board.place_ship(size, x, y, horizontal)`.  `some msg` in the second
component models the raised `ValueError`.  Note the source removes `size`
from `self._remaining_ships` *before* any further validation, so that
removal persists even when a later check fails. -/
def Board.placeShip (b : Board) (size : Nat) (x y : Int) (horizontal : Bool) :
    Board × Option String :=
  if size ∈ b.remaining then
    let b1 : Board := { b with remaining := b.remaining.erase size }
    match b1.shipCells size x y horizontal with
    | .error e => (b1, some e)
    | .ok cells =>
      if cells.length ≠ size then (b1, some "Not enough space to place ship")
      else if cells.any fun c => !(b1.cell c.1 c.2).isEmpty then
        (b1, some "Trying to place on existing ship")
      else
        ({ b1 with
            grid := (b1.setCells cells FieldState.SHIP).grid
            ships := b1.ships ++ [cells] }, none)
  else (b, some "No more ships of requested size allowed")

/-- `Board.still_floating`. -/
def Board.stillFloating (b : Board) : Bool :=
  b.ships.any fun ship => ship.any fun c => (b.cell c.1 c.2).isShip

/-- Well-formedness of the grid: `size` rows, each of length `size`.
Holds for every board produced by `Board.__init__` and is preserved by
every operation. -/
def Board.WF (b : Board) : Prop :=
  b.grid.length = b.size ∧ b.grid.all (fun row => row.length == b.size) = true

instance (b : Board) : Decidable b.WF := by
  unfold Board.WF
  infer_instance

/-!
game.py embedding.

A Python player object is modelled as a `Strategy σ`: an explicit-state
transition system whose calls can raise.  `PErr.fatal` stands for
`KeyboardInterrupt` / `SystemExit`, `PErr.nonfatal` for every other
`BaseException`.
-/

/-- Exception classification used by game.py's handlers. -/
inductive PErr where
  | fatal
  | nonfatal
deriving DecidableEq

/-- game.py `NaiveGame.__init__` configuration (same defaults). -/
structure GameConfig where
  size : Nat := 12
  maxTurns : Nat := 144
  maxFnTime : Nat := 0
  feedbackDelay : Nat := 0
  ships : List Nat := [2, 3, 3, 4, 5]

/-- A player implementation: construction plus the four capability calls
of the `Player` contract, each able to raise. -/
structure Strategy (σ : Type) where
  init : GameConfig → Except PErr σ
  shipLocations : σ → Except PErr (σ × List (Nat × Int × Int × Bool))
  dropBomb : σ → Except PErr (σ × (Int × Int))
  bombFeedback : σ → Int → Int → ShotResult → Except PErr σ
  bombedFeedback : σ → Int → Int → ShotResult → Except PErr σ

/-- Entries of the per-attacker feedback-delay queue (`FeedbackBuffer`). -/
abbrev FeedbackEntry := Option (Int × Int × ShotResult)

/-- Round-local state: the two player states, the two boards, the two
feedback buffers, and the turn counter. -/
structure RoundState (σ₁ σ₂ : Type) where
  p1 : σ₁
  p2 : σ₂
  b1 : Board
  b2 : Board
  buf1 : List FeedbackEntry
  buf2 : List FeedbackEntry
  turn : Nat

/-- `p1_board = Board(); p2_board = Board()` — both per-round boards are
created with `Board()`'s own defaults (game.py ignores the game's `size`
and `ships` here). -/
def roundBoards (_cfg : GameConfig) : Board × Board :=
  (Board.init, Board.init)

/-- One attacking turn of the body of `Game._play_round`'s loop (lenient
mode): attacker strategy/state, target strategy/state, target board and
the attacker's feedback buffer.  `.error ()` propagates
`KeyboardInterrupt` / `SystemExit`; every other exception is handled as
in the source (`continue` or `pass`).  `bomb_feedback(*feedback)` with
`feedback = None` raises a `TypeError` before entering the player, which
the surrounding `except BaseException: pass` swallows. -/
def lenientTurn (A : Strategy α) (T : Strategy β) (sa : α) (sb : β)
    (tb : Board) (buf : List FeedbackEntry) :
    Except Unit (α × β × Board × List FeedbackEntry) :=
  match A.dropBomb sa with
  | .error .fatal => .error ()
  | .error .nonfatal => .ok (sa, sb, tb, buf)
  | .ok (sa', (x, y)) =>
    match tb.dropBomb x y with
    | (tb', none) => .ok (sa', sb, tb', buf)
    | (tb', some result) =>
      let deliver : β → Except Unit (α × β × Board × List FeedbackEntry) := fun sb' =>
        let buf' := buf ++ [some (x, y, result)]
        let feedback := buf'.headD none
        let rest := buf'.tail
        -- source: `if result is not None:` — `result` is the ShotResult
        -- just computed, never `None`
        if (some result).isSome then
          match feedback with
          | none => .ok (sa', sb', tb', rest)
          | some (fx, fy, fr) =>
            match A.bombFeedback sa' fx fy fr with
            | .error .fatal => .error ()
            | .error .nonfatal => .ok (sa', sb', tb', rest)
            | .ok sa'' => .ok (sa'', sb', tb', rest)
        else .ok (sa', sb', tb', rest)
      match T.bombedFeedback sb x y result with
      | .error .fatal => .error ()
      | .error .nonfatal => deliver sb
      | .ok sb2 => deliver sb2

/-- One attacking turn of `NaiveGame._play_round`'s loop: identical
control flow but nothing is caught, so every exception propagates —
including the `TypeError` from `att.bomb_feedback(*feedback)` when the
popped buffer entry is `None`. -/
def naiveTurn (A : Strategy α) (T : Strategy β) (sa : α) (sb : β)
    (tb : Board) (buf : List FeedbackEntry) :
    Except PErr (α × β × Board × List FeedbackEntry) :=
  match A.dropBomb sa with
  | .error e => .error e
  | .ok (sa', (x, y)) =>
    match tb.dropBomb x y with
    | (_, none) => .error .nonfatal
    | (tb', some result) =>
      match T.bombedFeedback sb x y result with
      | .error e => .error e
      | .ok sb' =>
        let buf' := buf ++ [some (x, y, result)]
        let feedback := buf'.headD none
        let rest := buf'.tail
        if (some result).isSome then
          match feedback with
          | none => .error .nonfatal
          | some (fx, fy, fr) =>
            match A.bombFeedback sa' fx fy fr with
            | .error e => .error e
            | .ok sa'' => .ok (sa'', sb', tb', rest)
        else .ok (sa', sb', tb', rest)

/-- Scoring at the end of either round loop:
`score = p1.still_floating * 2, p2.still_floating * 2`, overridden to
`(1, 1)` when the pair does not sum to 2. -/
def score (f1 f2 : Bool) : Nat × Nat :=
  if (if f1 then 2 else 0) + (if f2 then 2 else 0) ≠ 2 then (1, 1)
  else ((if f1 then 2 else 0), (if f2 then 2 else 0))

/-- The alternating loop of `Game._play_round` (lenient).  `fuel` bounds
recursion; the loop itself stops when the attacker's own board has
nothing floating or the turn counter exceeds `2 * max_turns`, so fuel
`2 * maxTurns + 1` is never exhausted. -/
def Game.loop (maxTurns : Nat) (S1 : Strategy σ₁) (S2 : Strategy σ₂)
    (firstIsP1 : Bool) : Nat → RoundState σ₁ σ₂ → Except Unit (RoundState σ₁ σ₂)
  | 0, st => .ok st
  | fuel + 1, st =>
    let turn := st.turn + 1
    let attIsP1 := if turn % 2 = 1 then firstIsP1 else !firstIsP1
    if !(if attIsP1 then st.b1 else st.b2).stillFloating ∨ 2 * maxTurns < turn then
      .ok st
    else if attIsP1 then
      match lenientTurn S1 S2 st.p1 st.p2 st.b2 st.buf1 with
      | .error e => .error e
      | .ok (p1', p2', b2', buf1') =>
        Game.loop maxTurns S1 S2 firstIsP1 fuel
          { st with p1 := p1', p2 := p2', b2 := b2', buf1 := buf1', turn := turn }
    else
      match lenientTurn S2 S1 st.p2 st.p1 st.b1 st.buf2 with
      | .error e => .error e
      | .ok (p2', p1', b1', buf2') =>
        Game.loop maxTurns S1 S2 firstIsP1 fuel
          { st with p1 := p1', p2 := p2', b1 := b1', buf2 := buf2', turn := turn }

/-- The same loop for `NaiveGame._play_round`: exceptions propagate. -/
def NaiveGame.loop (maxTurns : Nat) (S1 : Strategy σ₁) (S2 : Strategy σ₂)
    (firstIsP1 : Bool) : Nat → RoundState σ₁ σ₂ → Except PErr (RoundState σ₁ σ₂)
  | 0, st => .ok st
  | fuel + 1, st =>
    let turn := st.turn + 1
    let attIsP1 := if turn % 2 = 1 then firstIsP1 else !firstIsP1
    if !(if attIsP1 then st.b1 else st.b2).stillFloating ∨ 2 * maxTurns < turn then
      .ok st
    else if attIsP1 then
      match naiveTurn S1 S2 st.p1 st.p2 st.b2 st.buf1 with
      | .error e => .error e
      | .ok (p1', p2', b2', buf1') =>
        NaiveGame.loop maxTurns S1 S2 firstIsP1 fuel
          { st with p1 := p1', p2 := p2', b2 := b2', buf1 := buf1', turn := turn }
    else
      match naiveTurn S2 S1 st.p2 st.p1 st.b1 st.buf2 with
      | .error e => .error e
      | .ok (p2', p1', b1', buf2') =>
        NaiveGame.loop maxTurns S1 S2 firstIsP1 fuel
          { st with p1 := p1', p2 := p2', b1 := b1', buf2 := buf2', turn := turn }

/-- Ship setup in lenient mode: each `place_ship` failure is skipped
(`except ValueError: pass`), keeping whatever the failing call already
mutated. -/
def lenientPlace (b : Board) (ships : List (Nat × Int × Int × Bool)) : Board :=
  ships.foldl (fun bb s => (bb.placeShip s.1 s.2.1 s.2.2.1 s.2.2.2).1) b

/-- Ship setup in `NaiveGame`: a `place_ship` failure propagates out of
the round. -/
def naivePlace (b : Board) : List (Nat × Int × Int × Bool) → Option Board
  | [] => some b
  | s :: rest =>
    match b.placeShip s.1 s.2.1 s.2.2.1 s.2.2.2 with
    | (_, some _) => none
    | (b', none) => naivePlace b' rest

/-- Scoring step shared by the round runners: propagate an interrupt or
score the final boards. -/
def finishRound (r : Except Unit (RoundState σ₁ σ₂)) : Except Unit (Nat × Nat) :=
  match r with
  | .error e => .error e
  | .ok st => .ok (score st.b1.stillFloating st.b2.stillFloating)

/-- `Game._play_round` (lenient mode): player construction with failure
handling and forfeits, default boards, lenient ship setup, the loop, and
scoring.  `firstIsP1` stands for the outcome of `random.shuffle`.
`.error ()` is a propagated `KeyboardInterrupt` / `SystemExit`. -/
def Game.playRound (cfg : GameConfig) (S1 : Strategy σ₁) (S2 : Strategy σ₂)
    (firstIsP1 : Bool) : Except Unit (Nat × Nat) :=
  match S1.init cfg, S2.init cfg with
  | .error .fatal, _ => .error ()
  | _, .error .fatal => .error ()
  | .error .nonfatal, .error .nonfatal => .ok (1, 1)
  | .error .nonfatal, .ok _ => .ok (0, 2)
  | .ok _, .error .nonfatal => .ok (2, 0)
  | .ok s1, .ok s2 =>
    match S1.shipLocations s1 with
    | .error .fatal => .error ()
    | r1 =>
      match S2.shipLocations s2 with
      | .error .fatal => .error ()
      | r2 =>
        let (s1', l1) := match r1 with
          | .ok p => p
          | .error _ => (s1, [])
        let (s2', l2) := match r2 with
          | .ok p => p
          | .error _ => (s2, [])
        let boards := roundBoards cfg
        let b1 := lenientPlace boards.1 l1
        let b2 := lenientPlace boards.2 l2
        let buf0 : List FeedbackEntry := List.replicate cfg.feedbackDelay none
        finishRound (Game.loop cfg.maxTurns S1 S2 firstIsP1 (2 * cfg.maxTurns + 1)
          { p1 := s1', p2 := s2', b1 := b1, b2 := b2,
            buf1 := buf0, buf2 := buf0, turn := 0 })

/-- `NaiveGame._play_round`: no failure handling anywhere. -/
def NaiveGame.playRound (cfg : GameConfig) (S1 : Strategy σ₁) (S2 : Strategy σ₂)
    (firstIsP1 : Bool) : Except PErr (Nat × Nat) :=
  match S1.init cfg with
  | .error e => .error e
  | .ok s1 =>
    match S2.init cfg with
    | .error e => .error e
    | .ok s2 =>
      match S1.shipLocations s1 with
      | .error e => .error e
      | .ok (s1', l1) =>
        match S2.shipLocations s2 with
        | .error e => .error e
        | .ok (s2', l2) =>
          let boards := roundBoards cfg
          match naivePlace boards.1 l1 with
          | none => .error .nonfatal
          | some b1 =>
            match naivePlace boards.2 l2 with
            | none => .error .nonfatal
            | some b2 =>
              let buf0 : List FeedbackEntry := List.replicate cfg.feedbackDelay none
              match NaiveGame.loop cfg.maxTurns S1 S2 firstIsP1 (2 * cfg.maxTurns + 1)
                  { p1 := s1', p2 := s2', b1 := b1, b2 := b2,
                    buf1 := buf0, buf2 := buf0, turn := 0 } with
              | .error e => .error e
              | .ok st => .ok (score st.b1.stillFloating st.b2.stillFloating)

/-- `NaiveGame.play` / `Game.play` tournament accumulation, with the
per-round coin flips supplied as a list (one entry per round). -/
def Game.play (cfg : GameConfig) (S1 : Strategy σ₁) (S2 : Strategy σ₂) :
    List Bool → Nat × Nat → Except Unit (Nat × Nat)
  | [], acc => .ok acc
  | first :: rest, acc =>
    match Game.playRound cfg S1 S2 first with
    | .error e => .error e
    | .ok sc => Game.play cfg S1 S2 rest (acc.1 + sc.1, acc.2 + sc.2)

/-!
Concrete player implementations and predicates used in the verification.
-/

/-- A valid layout for the default ship multiset `(2, 3, 3, 4, 5)`:
one horizontal ship per row on rows 0–4, anchored at `x = 0`. -/
def simpleShips : List (Nat × Int × Int × Bool) :=
  [(2, 0, 0, true), (3, 0, 1, true), (3, 0, 2, true), (4, 0, 3, true), (5, 0, 4, true)]

/-- A well-behaved player that always shoots the same cell. -/
def constShooter (p : Int × Int) : Strategy Unit :=
  { init := fun _ => .ok ()
    shipLocations := fun s => .ok (s, simpleShips)
    dropBomb := fun s => .ok (s, p)
    bombFeedback := fun s _ _ _ => .ok s
    bombedFeedback := fun s _ _ _ => .ok s }

/-- The cells occupied by `simpleShips`, as `(x, y)` shot coordinates. -/
def simpleShipCells : List (Int × Int) :=
  [(0, 0), (1, 0),
   (0, 1), (1, 1), (2, 1),
   (0, 2), (1, 2), (2, 2),
   (0, 3), (1, 3), (2, 3), (3, 3),
   (0, 4), (1, 4), (2, 4), (3, 4), (4, 4)]

/-- A player that places `simpleShips` and shoots every cell of
`simpleShips` in turn: against an opponent with that layout it sinks
everything within 17 shots. -/
def sweeper : Strategy Nat :=
  { init := fun _ => .ok 0
    shipLocations := fun s => .ok (s, simpleShips)
    dropBomb := fun s => .ok (s + 1, simpleShipCells.getD s (0, 0))
    bombFeedback := fun s _ _ _ => .ok s
    bombedFeedback := fun s _ _ _ => .ok s }

/-- A player whose `drop_bomb` always raises an ordinary exception. -/
def brokenShooter : Strategy Unit :=
  { init := fun _ => .ok ()
    shipLocations := fun s => .ok (s, simpleShips)
    dropBomb := fun _ => .error .nonfatal
    bombFeedback := fun s _ _ _ => .ok s
    bombedFeedback := fun s _ _ _ => .ok s }

/-- A player whose `drop_bomb` raises `KeyboardInterrupt`/`SystemExit`. -/
def fatalShooter : Strategy Unit :=
  { init := fun _ => .ok ()
    shipLocations := fun s => .ok (s, simpleShips)
    dropBomb := fun _ => .error .fatal
    bombFeedback := fun s _ _ _ => .ok s
    bombedFeedback := fun s _ _ _ => .ok s }

/-- A player whose construction raises `KeyboardInterrupt`/`SystemExit`. -/
def fatalInit : Strategy Unit :=
  { init := fun _ => .error .fatal
    shipLocations := fun s => .ok (s, simpleShips)
    dropBomb := fun s => .ok (s, (0, 0))
    bombFeedback := fun s _ _ _ => .ok s
    bombedFeedback := fun s _ _ _ => .ok s }

/-- The player's capability calls may fail, but never with
`KeyboardInterrupt` / `SystemExit`. -/
def NoFatal (S : Strategy σ) : Prop :=
  (∀ cfg, S.init cfg ≠ .error .fatal) ∧
  (∀ s, S.shipLocations s ≠ .error .fatal) ∧
  (∀ s, S.dropBomb s ≠ .error .fatal) ∧
  (∀ s x y r, S.bombFeedback s x y r ≠ .error .fatal) ∧
  (∀ s x y r, S.bombedFeedback s x y r ≠ .error .fatal)

/-- Boards reachable through the `Board` API from a fresh board. -/
inductive Reachable : Board → Prop where
  | init (size : Nat) (ships : List Nat) : Reachable (Board.init size ships)
  | place (b : Board) (size : Nat) (x y : Int) (horizontal : Bool) :
      Reachable b → Reachable (b.placeShip size x y horizontal).1
  | bomb (b : Board) (x y : Int) :
      Reachable b → Reachable (b.dropBomb x y).1

/-- Every cell recorded as part of a placed ship is in state `SHIP` or
`HIT`. -/
def ShipOK (b : Board) : Prop :=
  ∀ ship ∈ b.ships, ∀ c ∈ ship,
    b.cell c.1 c.2 = FieldState.SHIP ∨ b.cell c.1 c.2 = FieldState.HIT

/-- Coordinate `(row, column)` addresses an existing field of the grid. -/
def InBounds (b : Board) (c : Nat × Nat) : Prop :=
  c.1 < b.grid.length ∧ c.2 < (b.grid.getD c.1 []).length

/-!  Field-level lemmas.  -/

theorem Field.bombs_EMPTY (n : Nat) :
    Field.bombs FieldState.EMPTY (n + 1) = FieldState.MISSED := by
  induction n with
  | zero => rfl
  | succ n ih =>
    show (Field.transition (Field.bombs FieldState.EMPTY (n + 1))).1 = FieldState.MISSED
    rw [ih]
    rfl

theorem Field.bombs_SHIP (n : Nat) :
    Field.bombs FieldState.SHIP (n + 1) = FieldState.HIT := by
  induction n with
  | zero => rfl
  | succ n ih =>
    show (Field.transition (Field.bombs FieldState.SHIP (n + 1))).1 = FieldState.HIT
    rw [ih]
    rfl

/-- C7: `Field.drop_bomb` is the total deterministic transition table
EMPTY→MISSED/MISS, SHIP→HIT/HIT, HIT→HIT/PREVIOUS_HIT,
MISSED→MISSED/PREVIOUS_MISS; consequently an EMPTY field answers a
sequence of bombs with MISS once and then PREVIOUS_MISS forever, and a
SHIP field with HIT once and then PREVIOUS_HIT forever. -/
theorem c7_field_transitions :
    Field.transition FieldState.EMPTY = (FieldState.MISSED, ShotResult.MISS) ∧
    Field.transition FieldState.SHIP = (FieldState.HIT, ShotResult.HIT) ∧
    Field.transition FieldState.HIT = (FieldState.HIT, ShotResult.PREVIOUS_HIT) ∧
    Field.transition FieldState.MISSED = (FieldState.MISSED, ShotResult.PREVIOUS_MISS) ∧
    (∀ n : Nat, Field.nthResult FieldState.EMPTY n =
      if n = 0 then ShotResult.MISS else ShotResult.PREVIOUS_MISS) ∧
    (∀ n : Nat, Field.nthResult FieldState.SHIP n =
      if n = 0 then ShotResult.HIT else ShotResult.PREVIOUS_HIT) := by
  refine ⟨rfl, rfl, rfl, rfl, ?_, ?_⟩
  · intro n
    cases n with
    | zero => rfl
    | succ n => simp [Field.nthResult, Field.bombs_EMPTY, Field.transition]
  · intro n
    cases n with
    | zero => rfl
    | succ n => simp [Field.nthResult, Field.bombs_SHIP, Field.transition]

/-- C10: no reachable field transition ever returns `INVALID`, so a
successful `Board.drop_bomb` never returns `INVALID` either. -/
theorem c10_invalid_never_produced :
    (∀ s, (Field.transition s).2 ≠ ShotResult.INVALID) ∧
    (∀ (b : Board) (x y : Int), (b.dropBomb x y).2 ≠ some ShotResult.INVALID) := by
  constructor
  · intro s; cases s <;> simp [Field.transition]
  · intro b x y
    simp only [Board.dropBomb]
    rcases h1 : pyIndex b.grid.length y with _ | y' <;> simp only [h1]
    · simp
    · rcases h2 : pyIndex (b.grid.getD y' []).length x with _ | x' <;> simp only [h2]
      · simp
      · cases hb : b.cell y' x' <;> simp [hb, Field.transition]

/-- C5: the round score is `(2·still_floating(p1), 2·still_floating(p2))`
unless that pair does not sum to 2, in which case both entries are
overridden to the draw score `(1, 1)`. -/
theorem c5_round_scoring (f1 f2 : Bool) :
    score f1 f2 =
      (if (if f1 then 2 else 0) + (if f2 then 2 else 0) ≠ 2 then (1, 1)
       else ((if f1 then 2 else 0), (if f2 then 2 else 0))) ∧
    (score f1 f2 = (1, 1) ↔ f1 = f2) ∧
    score true false = (2, 0) ∧ score false true = (0, 2) := by
  cases f1 <;> cases f2 <;> simp [score]

/-- C2 fails on the code: after `Board(size=5, ships=[3])`, the failing
`place_ship(3, 3, 0, True)` consumes the only size-3 allocation (the
source removes from `_remaining_ships` before validating), so the
subsequent `place_ship(3, 0, 0, True)` — which the claim says succeeds —
also fails. -/
theorem c2_counterexample :
    (((Board.init 5 [3]).placeShip 3 3 0 true).2.isSome = true) ∧
    ((Board.init 5 [3]).placeShip 3 3 0 true).1.remaining = [] ∧
    ((((Board.init 5 [3]).placeShip 3 3 0 true).1.placeShip 3 0 0 true).2.isSome = true) := by
  decide

/-- C2 amended: a failing `place_ship` leaves every field state and the
placed-ship list unchanged, but it does consume the ship-size allocation
whenever the requested size was still available (the failure modes after
the size check — out-of-grid span and occupied cells — happen after
`_remaining_ships.remove(size)`). -/
theorem c2_place_ship_partial_atomicity :
    ∀ (b : Board) (size : Nat) (x y : Int) (horizontal : Bool),
      (b.placeShip size x y horizontal).2.isSome = true →
      (b.placeShip size x y horizontal).1.grid = b.grid ∧
      (b.placeShip size x y horizontal).1.ships = b.ships ∧
      (b.placeShip size x y horizontal).1.remaining =
        (if size ∈ b.remaining then b.remaining.erase size else b.remaining) := by
  intro b size x y hz h
  by_cases hm : size ∈ b.remaining
  · rcases hc : Board.shipCells { b with remaining := b.remaining.erase size } size x y hz
      with e | cells
    · simp [Board.placeShip, hm, hc]
    · by_cases hl : cells.length = size
      · by_cases ha : (cells.any fun c =>
            !(Board.cell { b with remaining := b.remaining.erase size } c.1 c.2).isEmpty) = true
        · simp [Board.placeShip, hm, hc, hl, ha]
        · simp [Board.placeShip, hm, hc, hl, ha] at h
      · simp [Board.placeShip, hm, hc, hl]
  · simp [Board.placeShip, hm]

/-- C2 witness: the spec's own example.  With `Board(size=5, ships=[3])`,
the failing `place_ship(3, 3, 0, True)` leaves the grid and ship list
unchanged but consumes the size-3 allocation. -/
theorem c2_place_ship_partial_atomicity_witness :
    ((Board.init 5 [3]).placeShip 3 3 0 true).1.grid = (Board.init 5 [3]).grid ∧
    ((Board.init 5 [3]).placeShip 3 3 0 true).1.ships = (Board.init 5 [3]).ships ∧
    ((Board.init 5 [3]).placeShip 3 3 0 true).1.remaining =
      (if 3 ∈ (Board.init 5 [3]).remaining then (Board.init 5 [3]).remaining.erase 3
       else (Board.init 5 [3]).remaining) :=
  c2_place_ship_partial_atomicity (Board.init 5 [3]) 3 3 0 true (by decide)

/-- C1 is what game.py was meant to do, but the code guards the delayed
delivery with `if result is not None:` — and `result` (the shot result
just produced) is never `None`; the popped buffer entry `feedback` is the
value that can be `None`.  With `feedback_delay = 1`, on the very first
attacking turn the popped entry is `None` and `att.bomb_feedback(*feedback)`
raises `TypeError`, which `NaiveGame._play_round` does not catch: the
round crashes instead of skipping the empty entry. -/
theorem c1_feedback_guard_code_bug :
    NaiveGame.playRound { feedbackDelay := 1 } (constShooter (0, 0)) (constShooter (0, 0)) true
      = .error PErr.nonfatal := by
  rfl

/-!  Python-indexing lemmas.  -/

theorem pyIndex_eq_none_iff (n : Nat) (i : Int) :
    pyIndex n i = none ↔ (i < -(n : Int) ∨ (n : Int) ≤ i) := by
  unfold pyIndex
  split_ifs with h1 h2 h3 <;> simp <;> omega

theorem pyIndex_lt {n : Nat} {i : Int} {j : Nat} (h : pyIndex n i = some j) : j < n := by
  unfold pyIndex at h
  split_ifs at h with h1 h2 h3 <;> simp at h <;> omega

theorem pyIndex_of_range {n : Nat} {i : Int} (h1 : -(n : Int) ≤ i) (h2 : i < (n : Int)) :
    pyIndex n i = some (i % (n : Int)).toNat := by
  unfold pyIndex
  by_cases hneg : i < 0
  · rw [if_pos hneg, if_neg (show ¬ i + (n : Int) < 0 by omega)]
    have hmod : i % (n : Int) = i + (n : Int) := by
      have h3 : (i + (n : Int)) % (n : Int) = i % (n : Int) := by
        have h5 := Int.add_mul_emod_self_left (a := i) (b := (n : Int)) (c := 1)
        rw [Int.mul_one] at h5
        exact h5
      rw [← h3]
      exact Int.emod_eq_of_lt (by omega) (by omega)
    rw [hmod]
  · rw [if_neg hneg, if_pos h2, Int.emod_eq_of_lt (by omega) h2]

theorem pySliceIdx_of_nonneg {n : Nat} {i : Int} (h1 : 0 ≤ i) (h2 : i ≤ (n : Int)) :
    pySliceIdx n i = i.toNat := by
  unfold pySliceIdx
  rw [if_neg (by omega)]
  omega

theorem pySliceIdx_le (n : Nat) (i : Int) : pySliceIdx n i ≤ n := by
  unfold pySliceIdx
  split_ifs with h <;> omega

/-- `drop_bomb` when the row lookup raises `IndexError`. -/
theorem Board.dropBomb_none_y {b : Board} {x y : Int}
    (hy : pyIndex b.grid.length y = none) : b.dropBomb x y = (b, none) := by
  unfold Board.dropBomb
  rw [hy]

/-- `drop_bomb` when the row resolves but the column lookup raises. -/
theorem Board.dropBomb_none_x {b : Board} {x y : Int} {y' : Nat}
    (hy : pyIndex b.grid.length y = some y')
    (hx : pyIndex (b.grid.getD y' []).length x = none) :
    b.dropBomb x y = (b, none) := by
  unfold Board.dropBomb
  rw [hy]
  simp only [hx]

/-- `drop_bomb` on a field that resolves: the field transitions. -/
theorem Board.dropBomb_some {b : Board} {x y : Int} {y' x' : Nat}
    (hy : pyIndex b.grid.length y = some y')
    (hx : pyIndex (b.grid.getD y' []).length x = some x') :
    b.dropBomb x y =
      (b.setCell y' x' (Field.transition (b.cell y' x')).1,
       some (Field.transition (b.cell y' x')).2) := by
  unfold Board.dropBomb
  rw [hy]
  simp only [hx]

/-- Row `y` of a well-formed board has `size` entries. -/
theorem Board.WF.row_length {b : Board} (hb : b.WF) {y : Nat} (hy : y < b.grid.length) :
    (b.grid.getD y []).length = b.size := by
  have hmem : b.grid.getD y [] ∈ b.grid := by
    rw [List.getD_eq_getElem?_getD, List.getElem?_eq_getElem hy]
    exact List.getElem_mem hy
  exact eq_of_beq (List.all_eq_true.mp hb.2 _ hmem)

/-- C3 fails on the code: `drop_bomb(-1, 0)` on a size-5 board has
`(-1, 0)` outside `[0, 5) × [0, 5)`, yet it does not fail — Python
negative indexing wraps it to column 4 and the shot lands (MISS). -/
theorem c3_counterexample :
    ((Board.init 5 []).dropBomb (-1) 0).2 = some ShotResult.MISS ∧
    ¬ (0 : Int) ≤ -1 ∧
    ((Board.init 5 []).dropBomb (-1) 0).1.cell 0 4 = FieldState.MISSED := by
  refine ⟨by rfl, by norm_num, by rfl⟩

/-- C3 amended: on a well-formed board of size N, `drop_bomb(x, y)` fails
with the invalid-coordinates error iff `x ∉ [-N, N)` or `y ∉ [-N, N)`
(negative in-range coordinates wrap instead of failing); on failure no
field is mutated; and in the lenient round loop an attacker's shot that
fails this way is a no-effect skip: target board, buffers and target
player are untouched and no feedback is generated for that turn. -/
theorem c3_drop_bomb_failure :
    ∀ (b : Board) (x y : Int), b.WF →
      (((b.dropBomb x y).2 = none) ↔
        (x < -(b.size : Int) ∨ (b.size : Int) ≤ x ∨
         y < -(b.size : Int) ∨ (b.size : Int) ≤ y)) ∧
      ((b.dropBomb x y).2 = none → (b.dropBomb x y).1 = b) ∧
      (∀ (α β : Type) (A : Strategy α) (T : Strategy β) (sa sa' : α) (sb : β)
         (buf : List FeedbackEntry),
         A.dropBomb sa = .ok (sa', (x, y)) → (b.dropBomb x y).2 = none →
         lenientTurn A T sa sb b buf = .ok (sa', sb, b, buf)) := by
  intro b x y hb
  have hlen : b.grid.length = b.size := hb.1
  have hpair : (b.dropBomb x y).2 = none → (b.dropBomb x y).1 = b := by
    intro h2
    rcases hy : pyIndex b.grid.length y with _ | y'
    · rw [Board.dropBomb_none_y hy]
    · rcases hx : pyIndex (b.grid.getD y' []).length x with _ | x'
      · rw [Board.dropBomb_none_x hy hx]
      · rw [Board.dropBomb_some hy hx] at h2
        exact absurd h2 (by simp)
  refine ⟨?_, hpair, ?_⟩
  · constructor
    · intro h2
      rcases hy : pyIndex b.grid.length y with _ | y'
      · have hout := (pyIndex_eq_none_iff _ _).mp hy
        rw [hlen] at hout
        omega
      · rcases hx : pyIndex (b.grid.getD y' []).length x with _ | x'
        · have hrow := hb.row_length (pyIndex_lt hy)
          have hout := (pyIndex_eq_none_iff _ _).mp hx
          rw [hrow] at hout
          omega
        · rw [Board.dropBomb_some hy hx] at h2
          exact absurd h2 (by simp)
    · intro hcon
      rcases hy : pyIndex b.grid.length y with _ | y'
      · rw [Board.dropBomb_none_y hy]
      · have hyok : ¬(y < -(b.size : Int) ∨ (b.size : Int) ≤ y) := by
          intro hy2
          have hn : pyIndex b.grid.length y = none :=
            (pyIndex_eq_none_iff _ _).mpr (by rw [hlen]; exact hy2)
          rw [hy] at hn
          exact Option.noConfusion hn
        have hrow := hb.row_length (pyIndex_lt hy)
        have hxout : pyIndex (b.grid.getD y' []).length x = none := by
          apply (pyIndex_eq_none_iff _ _).mpr
          rw [hrow]
          omega
        rw [Board.dropBomb_none_x hy hxout]
  · intro α β A T sa sa' sb buf hA hnone
    have hbd : b.dropBomb x y = (b, none) := by
      have h1 := hpair hnone
      have h0 : b.dropBomb x y = ((b.dropBomb x y).1, (b.dropBomb x y).2) := rfl
      rw [h0, h1, hnone]
    unfold lenientTurn
    simp only [hA, hbd]

/-- C3 witness: on `Board(5)` the genuinely out-of-range shot `(7, 0)`
fails, mutates nothing, and is a no-effect skip in the lenient loop. -/
theorem c3_drop_bomb_failure_witness :
    ((Board.init 5 []).dropBomb 7 0).2 = none ∧
    ((Board.init 5 []).dropBomb 7 0).1 = Board.init 5 [] ∧
    lenientTurn (constShooter (7, 0)) (constShooter (0, 0)) () () (Board.init 5 []) []
      = .ok ((), (), Board.init 5 [], []) := by
  have h := c3_drop_bomb_failure (Board.init 5 []) 7 0 (by decide)
  have h1 : ((Board.init 5 []).dropBomb 7 0).2 = none := h.1.mpr (by decide)
  exact ⟨h1, h.2.1 h1, h.2.2 Unit Unit _ _ () () () [] rfl h1⟩

/-- `[column[x] for column in rows]` when every row resolves `x` to the
same physical column. -/
theorem resolveCols_ok (grid : List (List FieldState)) (x : Int) (rs : List Nat)
    (x' : Nat) (h : ∀ r ∈ rs, pyIndex (grid.getD r []).length x = some x') :
    resolveCols grid x rs = .ok (rs.map fun r => (r, x')) := by
  induction rs with
  | nil => rfl
  | cons r rest ih =>
    simp only [resolveCols, h r (List.mem_cons_self r rest),
      ih (fun r hr => h r (List.mem_cons_of_mem _ hr)), List.map_cons]

/-- C9: Python negative indexing is accepted by the board API.  For shots
with `x, y ∈ [-N, N)` and `x < 0` or `y < 0`, `drop_bomb` does not fail:
it resolves to the field at column `x mod N`, row `y mod N`, mutates that
field and returns its shot result.  Likewise `place_ship` accepts a
negative start coordinate by wrapping: a vertical placement with
`x ∈ [-N, 0)` onto free cells succeeds and records the ship in column
`x + N`. -/
theorem c9_negative_index_wrap :
    (∀ (b : Board) (x y : Int), b.WF →
       -(b.size : Int) ≤ x → x < (b.size : Int) →
       -(b.size : Int) ≤ y → y < (b.size : Int) → (x < 0 ∨ y < 0) →
       b.dropBomb x y =
         (b.setCell (y % (b.size : Int)).toNat (x % (b.size : Int)).toNat
            (Field.transition
              (b.cell (y % (b.size : Int)).toNat (x % (b.size : Int)).toNat)).1,
          some (Field.transition
              (b.cell (y % (b.size : Int)).toNat (x % (b.size : Int)).toNat)).2)) ∧
    (∀ (b : Board) (size : Nat) (x y : Int), b.WF → size ∈ b.remaining →
       -(b.size : Int) ≤ x → x < 0 → 0 ≤ y → y + size ≤ (b.size : Int) →
       (((List.range' y.toNat size).map
           fun r => (r, (x + (b.size : Int)).toNat)).all
          (fun c => (b.cell c.1 c.2).isEmpty) = true) →
       (b.placeShip size x y false).2 = none ∧
       (b.placeShip size x y false).1.ships =
         b.ships ++ [(List.range' y.toNat size).map
           fun r => (r, (x + (b.size : Int)).toNat)]) := by
  constructor
  · intro b x y hb hx1 hx2 hy1 hy2 _hneg
    have hy : pyIndex b.grid.length y = some (y % (b.size : Int)).toNat := by
      rw [hb.1]
      exact pyIndex_of_range hy1 hy2
    have hx : pyIndex (b.grid.getD (y % (b.size : Int)).toNat []).length x
        = some (x % (b.size : Int)).toNat := by
      rw [hb.row_length (pyIndex_lt hy)]
      exact pyIndex_of_range hx1 hx2
    exact Board.dropBomb_some hy hx
  · intro b size x y hb hmem hx1 hx2 hy1 hy2 hempty
    have hslice : pySliceIdxs b.grid.length y (y + (size : Int))
        = List.range' y.toNat size := by
      unfold pySliceIdxs
      rw [hb.1, pySliceIdx_of_nonneg hy1 (by omega),
        pySliceIdx_of_nonneg (by omega) hy2]
      congr 1
      omega
    have hcols : ∀ r ∈ List.range' y.toNat size,
        pyIndex (b.grid.getD r []).length x = some (x + (b.size : Int)).toNat := by
      intro r hr
      rcases List.mem_range'.mp hr with ⟨i, hi, rfl⟩
      have hrlt : y.toNat + 1 * i < b.grid.length := by
        rw [hb.1]
        omega
      rw [hb.row_length hrlt]
      unfold pyIndex
      rw [if_pos hx2, if_neg (show ¬ x + ((b.size : Nat) : Int) < 0 by omega)]
    have hsc : Board.shipCells { b with remaining := b.remaining.erase size }
        size x y false
        = .ok ((List.range' y.toNat size).map
            fun r => (r, (x + (b.size : Int)).toNat)) := by
      unfold Board.shipCells
      rw [if_neg (by simp)]
      rw [show ({ b with remaining := b.remaining.erase size } : Board).grid
        = b.grid from rfl, hslice]
      exact resolveCols_ok _ _ _ _ hcols
    have hany : (((List.range' y.toNat size).map
        fun r => (r, (x + (b.size : Int)).toNat)).any
          fun c => !(Board.cell { b with remaining := b.remaining.erase size }
            c.1 c.2).isEmpty) = false := by
      rw [List.any_eq_false]
      intro c hc
      have hce := List.all_eq_true.mp hempty c hc
      have hcc : Board.cell { b with remaining := b.remaining.erase size } c.1 c.2
          = b.cell c.1 c.2 := rfl
      rw [hcc, hce]
      simp
    simp only [Board.placeShip, if_pos hmem, hsc]
    rw [if_neg (show ¬ ((List.range' y.toNat size).map
        (fun r => (r, (x + (b.size : Int)).toNat))).length ≠ size by simp)]
    rw [if_neg (by rw [hany]; simp)]
    exact ⟨rfl, rfl⟩

/-- C9 witness: on `Board(5, [3])`, `drop_bomb(-1, 0)` wraps to column 4,
and the vertical `place_ship(3, -1, 0, False)` succeeds, occupying
column 4, rows 0–2. -/
theorem c9_negative_index_wrap_witness :
    (Board.init 5 [3]).dropBomb (-1) 0 =
      ((Board.init 5 [3]).setCell 0 4
         (Field.transition ((Board.init 5 [3]).cell 0 4)).1,
       some (Field.transition ((Board.init 5 [3]).cell 0 4)).2) ∧
    ((Board.init 5 [3]).placeShip 3 (-1) 0 false).2 = none ∧
    ((Board.init 5 [3]).placeShip 3 (-1) 0 false).1.ships = [[(0, 4), (1, 4), (2, 4)]] := by
  refine ⟨?_, ?_, ?_⟩
  · have h := c9_negative_index_wrap.1 (Board.init 5 [3]) (-1) 0 (by decide)
      (by decide) (by decide) (by decide) (by decide) (Or.inl (by decide))
    exact h.trans (by decide)
  · exact (c9_negative_index_wrap.2 (Board.init 5 [3]) 3 (-1) 0 (by decide)
      (by decide) (by decide) (by decide) (by decide) (by decide) (by decide)).1
  · have h := (c9_negative_index_wrap.2 (Board.init 5 [3]) 3 (-1) 0 (by decide)
      (by decide) (by decide) (by decide) (by decide) (by decide) (by decide)).2
    exact h.trans (by decide)

/-- C4: the two per-round boards come from `Board()` with its own
defaults — size 12, remaining ships (2, 3, 3, 4, 5) — whatever `size` and
`ships` the game was configured with; those parameters reach only the
player constructors, so a lenient round's outcome depends on the
configuration only through `max_turns`, `feedback_delay` and what the
players' constructors do with it. -/
theorem c4_round_boards_default :
    (∀ cfg : GameConfig,
       roundBoards cfg = (Board.init 12 [2, 3, 3, 4, 5], Board.init 12 [2, 3, 3, 4, 5]) ∧
       (roundBoards cfg).1.size = 12 ∧
       (roundBoards cfg).1.remaining = [2, 3, 3, 4, 5] ∧
       (roundBoards cfg).2.size = 12 ∧
       (roundBoards cfg).2.remaining = [2, 3, 3, 4, 5]) ∧
    (∀ (σ₁ σ₂ : Type) (cfg cfg' : GameConfig) (S1 : Strategy σ₁) (S2 : Strategy σ₂)
       (firstIsP1 : Bool),
       cfg.maxTurns = cfg'.maxTurns → cfg.feedbackDelay = cfg'.feedbackDelay →
       S1.init cfg = S1.init cfg' → S2.init cfg = S2.init cfg' →
       Game.playRound cfg S1 S2 firstIsP1 = Game.playRound cfg' S1 S2 firstIsP1) := by
  constructor
  · intro cfg
    exact ⟨rfl, rfl, rfl, rfl, rfl⟩
  · intro σ₁ σ₂ cfg cfg' S1 S2 firstIsP1 hmax hdelay hinit1 hinit2
    unfold Game.playRound roundBoards
    rw [hmax, hdelay, hinit1, hinit2]

/-- C4 witness: a game configured with board size 3 and a single size-9
ship plays the same lenient round as a default-configured game. -/
theorem c4_round_boards_default_witness :
    Game.playRound { size := 3, ships := [9] } (constShooter (0, 0)) (constShooter (1, 1)) true
      = Game.playRound {} (constShooter (0, 0)) (constShooter (1, 1)) true :=
  c4_round_boards_default.2 Unit Unit { size := 3, ships := [9] } {}
    (constShooter (0, 0)) (constShooter (1, 1)) true rfl rfl rfl rfl

/-!  Cell-update lemmas used for the `still_floating` invariant.  -/

theorem Board.setCell_grid_length (b : Board) (y x : Nat) (s : FieldState) :
    (b.setCell y x s).grid.length = b.grid.length := by
  unfold Board.setCell
  exact List.length_set ..

theorem Board.setCell_row_length (b : Board) (y x : Nat) (s : FieldState) (j : Nat) :
    ((b.setCell y x s).grid.getD j []).length = (b.grid.getD j []).length := by
  unfold Board.setCell
  simp only [List.getD_eq_getElem?_getD, List.getElem?_set]
  by_cases hyj : y = j
  · subst hyj
    rw [if_pos rfl]
    by_cases hy : y < b.grid.length
    · rw [if_pos hy]
      simp [List.length_set]
    · rw [if_neg hy]
      rw [List.getElem?_eq_none (l := b.grid) (n := y) (by omega)]
  · rw [if_neg hyj]

theorem Board.cell_setCell_self (b : Board) {y x : Nat} (s : FieldState)
    (hy : y < b.grid.length) (hx : x < (b.grid.getD y []).length) :
    (b.setCell y x s).cell y x = s := by
  unfold Board.cell Board.setCell
  rw [List.getD_eq_getElem?_getD] at hx
  simp only [List.getD_eq_getElem?_getD, List.getElem?_set_self hy, Option.getD_some,
    List.getElem?_set_self hx, Option.getD_some]

theorem Board.cell_setCell_ne (b : Board) {y x j i : Nat} (s : FieldState)
    (h : y ≠ j ∨ x ≠ i) :
    (b.setCell y x s).cell j i = b.cell j i := by
  unfold Board.cell Board.setCell
  simp only [List.getD_eq_getElem?_getD, List.getElem?_set]
  rcases h with h | h
  · rw [if_neg h]
  · by_cases hyj : y = j
    · subst hyj
      rw [if_pos rfl]
      by_cases hy : y < b.grid.length
      · rw [if_pos hy]
        simp only [Option.getD_some]
        rw [List.getElem?_set_ne h]
      · rw [if_neg hy]
        rw [List.getElem?_eq_none (l := b.grid) (n := y) (by omega)]
    · rw [if_neg hyj]

theorem Board.setCell_inBounds (b : Board) (y x : Nat) (s : FieldState) (c : Nat × Nat) :
    InBounds (b.setCell y x s) c ↔ InBounds b c := by
  unfold InBounds
  rw [Board.setCell_grid_length, Board.setCell_row_length]

theorem Board.setCells_ships (cells : List (Nat × Nat)) (s : FieldState) :
    ∀ b : Board, (b.setCells cells s).ships = b.ships := by
  induction cells with
  | nil => intro b; rfl
  | cons d rest ih => intro b; exact ih (b.setCell d.1 d.2 s)

theorem Board.cell_setCells (s : FieldState) (cells : List (Nat × Nat)) :
    ∀ b : Board, (∀ d ∈ cells, InBounds b d) → ∀ c : Nat × Nat,
      (b.setCells cells s).cell c.1 c.2 = if c ∈ cells then s else b.cell c.1 c.2 := by
  induction cells with
  | nil =>
    intro b _ c
    simp [Board.setCells]
  | cons d rest ih =>
    intro b hbnd c
    have hstep : b.setCells (d :: rest) s = (b.setCell d.1 d.2 s).setCells rest s := rfl
    have hbnd' : ∀ e ∈ rest, InBounds (b.setCell d.1 d.2 s) e := fun e he =>
      (Board.setCell_inBounds b d.1 d.2 s e).mpr (hbnd e (List.mem_cons_of_mem d he))
    rw [hstep, ih (b.setCell d.1 d.2 s) hbnd' c]
    by_cases hc : c ∈ rest
    · rw [if_pos hc, if_pos (List.mem_cons_of_mem d hc)]
    · rw [if_neg hc]
      by_cases hcd : c = d
      · subst hcd
        rw [if_pos (List.mem_cons_self c rest)]
        exact Board.cell_setCell_self b s (hbnd c (List.mem_cons_self c rest)).1
          (hbnd c (List.mem_cons_self c rest)).2
      · rw [if_neg (by simp [hcd, hc])]
        apply Board.cell_setCell_ne
        by_cases h1 : d.1 = c.1
        · right
          intro h2
          exact hcd (Prod.ext h1.symm h2.symm)
        · left
          exact h1

theorem pySliceIdxs_lt {n : Nat} {a b : Int} {j : Nat} (h : j ∈ pySliceIdxs n a b) :
    j < n := by
  unfold pySliceIdxs at h
  rcases List.mem_range'.mp h with ⟨i, hi, rfl⟩
  have h1 := pySliceIdx_le n a
  have h2 := pySliceIdx_le n b
  omega

theorem resolveCols_mem {grid : List (List FieldState)} {x : Int} :
    ∀ {rs : List Nat} {cells : List (Nat × Nat)}, resolveCols grid x rs = .ok cells →
      ∀ c ∈ cells, c.1 ∈ rs ∧ pyIndex (grid.getD c.1 []).length x = some c.2 := by
  intro rs
  induction rs with
  | nil =>
    intro cells h c hc
    simp only [resolveCols] at h
    cases h
    simp at hc
  | cons r rest ih =>
    intro cells h c hc
    simp only [resolveCols] at h
    rcases hx : pyIndex (grid.getD r []).length x with _ | x'
    · rw [hx] at h
      cases h
    · rw [hx] at h
      rcases hrest : resolveCols grid x rest with e | l
      · rw [hrest] at h
        cases h
      · rw [hrest] at h
        cases h
        rcases List.mem_cons.mp hc with hc1 | hc2
        · subst hc1
          exact ⟨List.mem_cons_self r rest, hx⟩
        · rcases ih hrest c hc2 with ⟨h1, h2⟩
          exact ⟨List.mem_cons_of_mem r h1, h2⟩

theorem Board.shipCells_inBounds {b : Board} {size : Nat} {x y : Int} {hz : Bool}
    {cells : List (Nat × Nat)} (h : b.shipCells size x y hz = .ok cells) :
    ∀ c ∈ cells, InBounds b c := by
  intro c hc
  unfold Board.shipCells at h
  cases hz with
  | false =>
    simp only [Bool.false_eq_true, if_neg] at h
    rcases resolveCols_mem h c hc with ⟨h1, h2⟩
    exact ⟨pySliceIdxs_lt h1, pyIndex_lt h2⟩
  | true =>
    simp only [if_pos] at h
    rcases hy : pyIndex b.grid.length y with _ | y'
    · rw [hy] at h
      cases h
    · rw [hy] at h
      cases h
      rcases List.mem_map.mp hc with ⟨col, hcol, rfl⟩
      exact ⟨pyIndex_lt hy, pySliceIdxs_lt hcol⟩

theorem Board.dropBomb_ships (b : Board) (x y : Int) :
    (b.dropBomb x y).1.ships = b.ships := by
  rcases hy : pyIndex b.grid.length y with _ | y'
  · rw [Board.dropBomb_none_y hy]
  · rcases hx : pyIndex (b.grid.getD y' []).length x with _ | x'
    · rw [Board.dropBomb_none_x hy hx]
    · rw [Board.dropBomb_some hy hx]
      rfl

/-- A field is `SHIP` after a bomb only if it already was `SHIP` (and was
not the field that was hit): no transition produces `SHIP`. -/
theorem Board.dropBomb_cell_ship {b : Board} {x y : Int} {j i : Nat}
    (h : (b.dropBomb x y).1.cell j i = FieldState.SHIP) :
    b.cell j i = FieldState.SHIP := by
  rcases hy : pyIndex b.grid.length y with _ | y'
  · rw [Board.dropBomb_none_y hy] at h
    exact h
  · rcases hx : pyIndex (b.grid.getD y' []).length x with _ | x'
    · rw [Board.dropBomb_none_x hy hx] at h
      exact h
    · rw [Board.dropBomb_some hy hx] at h
      by_cases hco : y' = j ∧ x' = i
      · obtain ⟨rfl, rfl⟩ := hco
        rw [Board.cell_setCell_self b _ (pyIndex_lt hy) (pyIndex_lt hx)] at h
        cases hcell : b.cell y' x' <;> rw [hcell] at h <;>
          simp [Field.transition] at h
      · rw [Board.cell_setCell_ne] at h
        · exact h
        · by_cases h1 : y' = j
          · right
            intro h2
            exact hco ⟨h1, h2⟩
          · left
            exact h1

theorem FieldState.isShip_iff (s : FieldState) : s.isShip = true ↔ s = FieldState.SHIP := by
  cases s <;> simp [FieldState.isShip]

theorem Board.stillFloating_iff (b : Board) :
    b.stillFloating = true ↔
      ∃ ship ∈ b.ships, ∃ c ∈ ship, b.cell c.1 c.2 = FieldState.SHIP := by
  unfold Board.stillFloating
  simp [List.any_eq_true, FieldState.isShip_iff]

theorem ShipOK_dropBomb (b : Board) (x y : Int) (hok : ShipOK b) :
    ShipOK (b.dropBomb x y).1 := by
  rcases hy : pyIndex b.grid.length y with _ | y'
  · rw [Board.dropBomb_none_y hy]
    exact hok
  · rcases hx : pyIndex (b.grid.getD y' []).length x with _ | x'
    · rw [Board.dropBomb_none_x hy hx]
      exact hok
    · rw [Board.dropBomb_some hy hx]
      intro ship hs c hcc
      have hs' : ship ∈ b.ships := hs
      by_cases hco : y' = c.1 ∧ x' = c.2
      · obtain ⟨h1, h2⟩ := hco
        subst h1
        subst h2
        rw [Board.cell_setCell_self b _ (pyIndex_lt hy) (pyIndex_lt hx)]
        rcases hok ship hs' c hcc with h | h <;> rw [h] <;>
          simp [Field.transition]
      · rw [Board.cell_setCell_ne]
        · exact hok ship hs' c hcc
        · by_cases h1 : y' = c.1
          · right
            intro h2
            exact hco ⟨h1, h2⟩
          · left
            exact h1

theorem ShipOK_placeShip (b : Board) (size : Nat) (x y : Int) (hz : Bool)
    (hok : ShipOK b) : ShipOK (b.placeShip size x y hz).1 := by
  by_cases hm : size ∈ b.remaining
  · rcases hc : Board.shipCells { b with remaining := b.remaining.erase size }
        size x y hz with e | cells
    · have hps : (b.placeShip size x y hz).1
          = { b with remaining := b.remaining.erase size } := by
        simp [Board.placeShip, hm, hc]
      rw [hps]
      exact hok
    · by_cases hl : cells.length = size
      · by_cases ha : (cells.any fun c =>
            !(Board.cell { b with remaining := b.remaining.erase size } c.1 c.2).isEmpty)
            = true
        · have hps : (b.placeShip size x y hz).1
              = { b with remaining := b.remaining.erase size } := by
            simp [Board.placeShip, hm, hc, hl, ha]
          rw [hps]
          exact hok
        · have hps : (b.placeShip size x y hz).1
              = { size := b.size
                  grid := (Board.setCells { b with remaining := b.remaining.erase size }
                    cells FieldState.SHIP).grid
                  ships := b.ships ++ [cells]
                  remaining := b.remaining.erase size } := by
            simp [Board.placeShip, hm, hc, hl, ha]
          rw [hps]
          have hbnd : ∀ d ∈ cells,
              InBounds { b with remaining := b.remaining.erase size } d :=
            Board.shipCells_inBounds hc
          have hcells := Board.cell_setCells FieldState.SHIP cells
            { b with remaining := b.remaining.erase size } hbnd
          intro ship hs c hcc
          have hs2 : ship ∈ b.ships ++ [cells] := hs
          have hcv : Board.cell
              { size := b.size
                grid := (Board.setCells { b with remaining := b.remaining.erase size }
                  cells FieldState.SHIP).grid
                ships := b.ships ++ [cells]
                remaining := b.remaining.erase size } c.1 c.2
              = (Board.setCells { b with remaining := b.remaining.erase size }
                  cells FieldState.SHIP).cell c.1 c.2 := rfl
          rw [hcv, hcells c]
          rcases List.mem_append.mp hs2 with hold | hnew
          · by_cases hcin : c ∈ cells
            · rw [if_pos hcin]
              left
              rfl
            · rw [if_neg hcin]
              exact hok ship hold c hcc
          · have hship : ship = cells := List.mem_singleton.mp hnew
            subst hship
            rw [if_pos hcc]
            left
            rfl
      · have hps : (b.placeShip size x y hz).1
            = { b with remaining := b.remaining.erase size } := by
          simp [Board.placeShip, hm, hc, hl]
        rw [hps]
        exact hok
  · have hps : (b.placeShip size x y hz).1 = b := by
      simp [Board.placeShip, hm]
    rw [hps]
    exact hok

theorem reachable_ShipOK {b : Board} (h : Reachable b) : ShipOK b := by
  induction h with
  | init n ships =>
    intro ship hs
    simp [Board.init] at hs
  | place b size x y hz _ ih => exact ShipOK_placeShip b size x y hz ih
  | bomb b x y _ ih => exact ShipOK_dropBomb b x y ih

/-- C8: on every board reachable through the API, `still_floating` is
true iff some cell of some placed ship is still `SHIP`; it is false iff
every cell of every placed ship has been hit (is `HIT`); and once false
it stays false under every further `drop_bomb` (no cell reverts to
`SHIP`). -/
theorem c8_still_floating :
    ∀ b : Board, Reachable b →
      ((b.stillFloating = true) ↔
        ∃ ship ∈ b.ships, ∃ c ∈ ship, b.cell c.1 c.2 = FieldState.SHIP) ∧
      ((b.stillFloating = false) ↔
        ∀ ship ∈ b.ships, ∀ c ∈ ship, b.cell c.1 c.2 = FieldState.HIT) ∧
      (∀ x y : Int, b.stillFloating = false →
        (b.dropBomb x y).1.stillFloating = false) := by
  intro b hr
  have hok := reachable_ShipOK hr
  refine ⟨Board.stillFloating_iff b, ⟨?_, ?_⟩, ?_⟩
  · intro hf ship hs c hcc
    have hns : ¬ (∃ ship ∈ b.ships, ∃ c ∈ ship, b.cell c.1 c.2 = FieldState.SHIP) := by
      rw [← Board.stillFloating_iff]
      simp [hf]
    push_neg at hns
    rcases hok ship hs c hcc with h | h
    · exact absurd h (hns ship hs c hcc)
    · exact h
  · intro hall
    cases hsf : b.stillFloating
    · rfl
    · exfalso
      rcases (Board.stillFloating_iff b).mp hsf with ⟨ship, hs, c, hcc, hship⟩
      rw [hall ship hs c hcc] at hship
      cases hship
  · intro x y hf
    cases hsf : (b.dropBomb x y).1.stillFloating
    · rfl
    · exfalso
      rcases (Board.stillFloating_iff _).mp hsf with ⟨ship, hs, c, hcc, hship⟩
      rw [Board.dropBomb_ships] at hs
      have hold : b.cell c.1 c.2 = FieldState.SHIP := Board.dropBomb_cell_ship hship
      have hfl : b.stillFloating = true :=
        (Board.stillFloating_iff b).mpr ⟨ship, hs, c, hcc, hold⟩
      rw [hf] at hfl
      cases hfl

/-- C8 witness: a 1×1 board with its single ship cell hit is no longer
floating, and stays sunk after a further bomb. -/
theorem c8_still_floating_witness :
    ((((Board.init 1 [1]).placeShip 1 0 0 true).1.dropBomb 0 0).1.stillFloating = false) ∧
    (((((Board.init 1 [1]).placeShip 1 0 0 true).1.dropBomb 0 0).1.dropBomb 0 0).1.stillFloating
      = false) := by
  have hr : Reachable (((Board.init 1 [1]).placeShip 1 0 0 true).1.dropBomb 0 0).1 :=
    Reachable.bomb _ 0 0 (Reachable.place _ 1 0 0 true (Reachable.init 1 [1]))
  have h := c8_still_floating _ hr
  have h1 := h.2.1.mpr (by decide)
  exact ⟨h1, h.2.2 0 0 h1⟩

/-!  Lenient-mode failure isolation (C6).  -/

theorem lenientTurn_ok {α β : Type} {A : Strategy α} {T : Strategy β}
    (hA : NoFatal A) (hT : NoFatal T) (sa : α) (sb : β) (tb : Board)
    (buf : List FeedbackEntry) :
    ∃ out, lenientTurn A T sa sb tb buf = .ok out := by
  rcases hd : A.dropBomb sa with e | ⟨sa', x, y⟩
  · cases e
    · exact absurd hd (hA.2.2.1 sa)
    · refine ⟨(sa, sb, tb, buf), ?_⟩
      simp only [lenientTurn, hd]
  · rcases hdb : tb.dropBomb x y with ⟨tb', _ | result⟩
    · refine ⟨(sa', sb, tb', buf), ?_⟩
      simp only [lenientTurn, hd, hdb]
    · rcases hbf : T.bombedFeedback sb x y result with e2 | sb2
      · cases e2
        · exact absurd hbf (hT.2.2.2.2 sb x y result)
        · rcases hfb : (buf ++ [some (x, y, result)]).headD none with _ | ⟨fx, fy, fr⟩
          · refine ⟨(sa', sb, tb', (buf ++ [some (x, y, result)]).tail), ?_⟩
            simp only [lenientTurn, hd, hdb, hbf]
            rw [hfb]
            rfl
          · rcases hbomb : A.bombFeedback sa' fx fy fr with e3 | sa''
            · cases e3
              · exact absurd hbomb (hA.2.2.2.1 sa' fx fy fr)
              · refine ⟨(sa', sb, tb', (buf ++ [some (x, y, result)]).tail), ?_⟩
                simp only [lenientTurn, hd, hdb, hbf]
                rw [hfb]
                simp only [hbomb]
                rfl
            · refine ⟨(sa'', sb, tb', (buf ++ [some (x, y, result)]).tail), ?_⟩
              simp only [lenientTurn, hd, hdb, hbf]
              rw [hfb]
              simp only [hbomb]
              rfl
      · rcases hfb : (buf ++ [some (x, y, result)]).headD none with _ | ⟨fx, fy, fr⟩
        · refine ⟨(sa', sb2, tb', (buf ++ [some (x, y, result)]).tail), ?_⟩
          simp only [lenientTurn, hd, hdb, hbf]
          rw [hfb]
          rfl
        · rcases hbomb : A.bombFeedback sa' fx fy fr with e3 | sa''
          · cases e3
            · exact absurd hbomb (hA.2.2.2.1 sa' fx fy fr)
            · refine ⟨(sa', sb2, tb', (buf ++ [some (x, y, result)]).tail), ?_⟩
              simp only [lenientTurn, hd, hdb, hbf]
              rw [hfb]
              simp only [hbomb]
              rfl
          · refine ⟨(sa'', sb2, tb', (buf ++ [some (x, y, result)]).tail), ?_⟩
            simp only [lenientTurn, hd, hdb, hbf]
            rw [hfb]
            simp only [hbomb]
            rfl

theorem Game.loop_ok {σ₁ σ₂ : Type} {S1 : Strategy σ₁} {S2 : Strategy σ₂}
    (h1 : NoFatal S1) (h2 : NoFatal S2) (mt : Nat) (first : Bool) :
    ∀ (fuel : Nat) (st : RoundState σ₁ σ₂),
      ∃ st', Game.loop mt S1 S2 first fuel st = .ok st' := by
  intro fuel
  induction fuel with
  | zero => intro st; exact ⟨st, rfl⟩
  | succ fuel ih =>
    intro st
    simp only [Game.loop]
    split_ifs <;>
      first
      | exact ⟨st, rfl⟩
      | (obtain ⟨out, hout⟩ := lenientTurn_ok h1 h2 st.p1 st.p2 st.b2 st.buf1
         obtain ⟨p1', p2', b2', buf1'⟩ := out
         rw [hout]
         exact ih _)
      | (obtain ⟨out, hout⟩ := lenientTurn_ok h2 h1 st.p2 st.p1 st.b1 st.buf2
         obtain ⟨p2', p1', b1', buf2'⟩ := out
         rw [hout]
         exact ih _)

theorem finishRound_ok {σ₁ σ₂ : Type} {r : Except Unit (RoundState σ₁ σ₂)}
    (h : ∃ st, r = .ok st) : ∃ sc, finishRound r = .ok sc := by
  obtain ⟨st, rfl⟩ := h
  exact ⟨_, rfl⟩

theorem Game.playRound_ok {σ₁ σ₂ : Type} (cfg : GameConfig)
    (S1 : Strategy σ₁) (S2 : Strategy σ₂)
    (h1 : NoFatal S1) (h2 : NoFatal S2) (first : Bool) :
    ∃ sc, Game.playRound cfg S1 S2 first = .ok sc := by
  unfold Game.playRound
  rcases hi1 : S1.init cfg with e1 | s1
  · cases e1
    · exact absurd hi1 (h1.1 cfg)
    · rcases hi2 : S2.init cfg with e2 | s2
      · cases e2
        · exact absurd hi2 (h2.1 cfg)
        · exact ⟨_, rfl⟩
      · exact ⟨_, rfl⟩
  · rcases hi2 : S2.init cfg with e2 | s2
    · cases e2
      · exact absurd hi2 (h2.1 cfg)
      · exact ⟨_, rfl⟩
    · dsimp only
      rcases hl1 : S1.shipLocations s1 with e1 | p1
      · cases e1
        · exact absurd hl1 (h1.2.1 s1)
        · dsimp only
          rcases hl2 : S2.shipLocations s2 with e2 | p2
          · cases e2
            · exact absurd hl2 (h2.2.1 s2)
            · dsimp only
              exact finishRound_ok
                (Game.loop_ok h1 h2 cfg.maxTurns first (2 * cfg.maxTurns + 1) _)
          · obtain ⟨s2', l2⟩ := p2
            dsimp only
            exact finishRound_ok
              (Game.loop_ok h1 h2 cfg.maxTurns first (2 * cfg.maxTurns + 1) _)
      · obtain ⟨s1', l1⟩ := p1
        dsimp only
        rcases hl2 : S2.shipLocations s2 with e2 | p2
        · cases e2
          · exact absurd hl2 (h2.2.1 s2)
          · dsimp only
            exact finishRound_ok
              (Game.loop_ok h1 h2 cfg.maxTurns first (2 * cfg.maxTurns + 1) _)
        · obtain ⟨s2', l2⟩ := p2
          dsimp only
          exact finishRound_ok
            (Game.loop_ok h1 h2 cfg.maxTurns first (2 * cfg.maxTurns + 1) _)

theorem Game.play_ok {σ₁ σ₂ : Type} (cfg : GameConfig)
    (S1 : Strategy σ₁) (S2 : Strategy σ₂)
    (h1 : NoFatal S1) (h2 : NoFatal S2) :
    ∀ (shuffles : List Bool) (acc : Nat × Nat),
      ∃ total, Game.play cfg S1 S2 shuffles acc = .ok total := by
  intro shuffles
  induction shuffles with
  | nil => intro acc; exact ⟨acc, rfl⟩
  | cons first rest ih =>
    intro acc
    obtain ⟨sc, hsc⟩ := Game.playRound_ok cfg S1 S2 h1 h2 first
    unfold Game.play
    rw [hsc]
    exact ih _

set_option maxRecDepth 8000

theorem Game.playRound_broken (first : Bool) :
    Game.playRound {} brokenShooter sweeper first = .ok (0, 2) := by
  cases first <;> rfl

theorem Game.play_broken (shuffles : List Bool) :
    ∀ acc : Nat × Nat,
      Game.play {} brokenShooter sweeper shuffles acc
        = .ok (acc.1, acc.2 + 2 * shuffles.length) := by
  induction shuffles with
  | nil => intro acc; simp [Game.play]
  | cons first rest ih =>
    intro acc
    unfold Game.play
    rw [Game.playRound_broken first]
    dsimp only
    rw [ih (acc.1 + 0, acc.2 + 2)]
    simp [List.length_cons]
    omega

theorem noFatal_constShooter (p : Int × Int) : NoFatal (constShooter p) := by
  refine ⟨?_, ?_, ?_, ?_, ?_⟩ <;> intros <;> simp [constShooter]

theorem noFatal_sweeper : NoFatal sweeper := by
  refine ⟨?_, ?_, ?_, ?_, ?_⟩ <;> intros <;> simp [sweeper]

theorem noFatal_brokenShooter : NoFatal brokenShooter := by
  refine ⟨?_, ?_, ?_, ?_, ?_⟩ <;> intros <;> simp [brokenShooter]

/-- C6: in lenient mode no ordinary player exception ever escapes a round
or the tournament loop: players whose capability calls can fail (but never
with `KeyboardInterrupt`/`SystemExit`) always produce a tournament total;
a player raising `KeyboardInterrupt`/`SystemExit` propagates it out of the
round; and a player whose `drop_bomb` always throws never crashes a
tournament — against an opponent that sinks its fleet it forfeits every
round, losing 0–2 each time (0–2000 over 1000 rounds). -/
theorem c6_lenient_isolation :
    (∀ (σ₁ σ₂ : Type) (cfg : GameConfig) (S1 : Strategy σ₁) (S2 : Strategy σ₂),
       NoFatal S1 → NoFatal S2 →
       ∀ (shuffles : List Bool) (acc : Nat × Nat),
         ∃ total, Game.play cfg S1 S2 shuffles acc = .ok total) ∧
    (∀ (σ₁ σ₂ : Type) (cfg : GameConfig) (S1 : Strategy σ₁) (S2 : Strategy σ₂)
       (firstIsP1 : Bool), S1.init cfg = .error .fatal →
       Game.playRound cfg S1 S2 firstIsP1 = .error ()) ∧
    (Game.playRound {} fatalShooter (constShooter (0, 0)) true = .error ()) ∧
    (∀ shuffles : List Bool, shuffles.length = 1000 →
       Game.play {} brokenShooter sweeper shuffles (0, 0) = .ok (0, 2000)) := by
  refine ⟨?_, ?_, ?_, ?_⟩
  · intro σ₁ σ₂ cfg S1 S2 h1 h2 shuffles acc
    exact Game.play_ok cfg S1 S2 h1 h2 shuffles acc
  · intro σ₁ σ₂ cfg S1 S2 first hfat
    rcases hi2 : S2.init cfg with e2 | s2 <;>
      simp [Game.playRound, hfat, hi2]
  · rfl
  · intro shuffles hlen
    have h := Game.play_broken shuffles (0, 0)
    rw [hlen] at h
    simpa using h

/-- C6 witness: concrete instances of each part of the isolation claim. -/
theorem c6_lenient_isolation_witness :
    (∃ total, Game.play {} (constShooter (0, 0)) sweeper [true] (0, 0) = .ok total) ∧
    (Game.playRound {} fatalInit (constShooter (0, 0)) true = .error ()) ∧
    (Game.play {} brokenShooter sweeper (List.replicate 1000 true) (0, 0)
      = .ok (0, 2000)) :=
  ⟨c6_lenient_isolation.1 Unit Nat {} (constShooter (0, 0)) sweeper
      (noFatal_constShooter (0, 0)) noFatal_sweeper [true] (0, 0),
   c6_lenient_isolation.2.1 Unit Unit {} fatalInit (constShooter (0, 0)) true rfl,
   c6_lenient_isolation.2.2.2 (List.replicate 1000 true) (by simp)⟩

end Battleships
